import Mathlib

/-!
Verification of the word-level morphological-analysis orchestration layer
(`zemberek/morphology/turkish_morphology.py`) and its result aggregate
(`zemberek/morphology/analysis/word_analysis.py`).

The orchestration layer consumes several collaborators whose code is not part
of the two files above (the tokenizer, the rule-based analyzer, the
unidentified-token analyzer, `TurkishAlphabet`, `TextUtil`, `SingleAnalysis`,
`DictionaryItem`). Those collaborators are embedded here either as abstract
function-valued fields of `TurkishMorphology` (the analyzers and the
tokenizer, which the design treats as external interfaces) or as small
definitions modelled from the specification text (the character-level
normalization helpers and the analysis data carriers).

Python raising is embedded with `Except PyError`: a Python function that can
raise becomes a Lean function into `Except`, and a function that cannot raise
stays total.
-/

/-- Modelled from the spec: primary part-of-speech tags carried by lexical
items (`PrimaryPos` is imported by the orchestration code but defined
outside the two repository files given). Only `Noun` is inspected by the
code under verification; the other constructors keep the type honest. -/
inductive PrimaryPos where
  | Noun
  | Adjective
  | Verb
  | Adverb
  | Pronoun
  | Conjunction
  | Numeral
  | Determiner
  | Interjection
  | Question
  | Duplicator
  | Punctuation
  | Unknown
deriving DecidableEq, Repr

/-- Modelled from the spec: a Morpheme is "a grammatical suffix category
... identified by a stable symbolic id" (`zemberek` defines it outside the
given files). -/
structure Morpheme where
  morphemeId : String
deriving DecidableEq, Repr

/-- Modelled from the spec: the third-person-singular-possessive morpheme
`TurkishMorphotactics.p3sg` referenced by the apostrophe splitter. -/
def TurkishMorphotactics.p3sg : Morpheme := { morphemeId := "P3sg" }

/-- Modelled from the spec: a Lexical Item ("a root lexeme ... surface root
string, primary part-of-speech, ... an unknown marker used for synthetic
placeholder items"). `DictionaryItem` is defined outside the given files;
the orchestration code reads `item.primary_pos` and `item.is_unknown()`. -/
structure DictionaryItem where
  root : String
  primary_pos : PrimaryPos
  unknown : Bool
deriving DecidableEq, Repr

/-- Modelled from the spec: a Single Analysis ("one complete derivation - the
Lexical Item used as root, the stem/ending split point, and the ordered
sequence of Morphemes applied"). `SingleAnalysis` is defined outside the
given files; the orchestration code reads `item`, `get_stem()`,
`contains_morpheme(...)` and `is_unknown()`. -/
structure SingleAnalysis where
  item : DictionaryItem
  stem : String
  morphemes : List Morpheme
deriving DecidableEq, Repr

/-- `SingleAnalysis.get_stem()`. -/
def SingleAnalysis.get_stem (s : SingleAnalysis) : String := s.stem

/-- `SingleAnalysis.contains_morpheme(m)`: membership of `m` in the ordered
morpheme sequence of the derivation. -/
def SingleAnalysis.contains_morpheme (s : SingleAnalysis) (m : Morpheme) : Bool :=
  decide (m ∈ s.morphemes)

/-- `SingleAnalysis.is_unknown()`: whether the root item is the unknown
marker. -/
def SingleAnalysis.is_unknown (s : SingleAnalysis) : Bool := s.item.unknown

/-- Modelled from the spec: a Token of the external Tokenizer, "each Token
exposing its text span". The orchestration code reads `token.content`. -/
structure Token where
  content : String
deriving DecidableEq, Repr

/-! ## Character-level normalization helpers

`TurkishAlphabet.lower_map` / `.lower()`, `normalize_circumflex`,
`TextUtil.normalize_apostrophes`, `TurkishAlphabet.contains_apostrophe`,
`normalize_apostrophe` and `TurkishAlphabet.normalize` live outside the two
given files; they are modelled from the spec sentences "case-fold via
language-specific lowering map, strip combining circumflex marks to plain
vowels, remove internal dot characters ... unless doing so empties the
string, normalize apostrophe variants to a single canonical apostrophe
character". -/

/-- The canonical apostrophe, `chr(39)` in the Python source. -/
def apostropheChar : Char := Char.ofNat 39

/-- Modelled from the spec: the language-specific lowering map (uppercase
letters of the Turkish alphabet to their lowercase forms, with dotless I and
dotted İ handled as in Turkish). -/
def lowerPairs : List (Char × Char) :=
  [('A', 'a'), ('B', 'b'), ('C', 'c'), ('D', 'd'), ('E', 'e'), ('F', 'f'),
   ('G', 'g'), ('H', 'h'), ('J', 'j'), ('K', 'k'), ('L', 'l'),
   ('M', 'm'), ('N', 'n'), ('O', 'o'), ('P', 'p'), ('Q', 'q'), ('R', 'r'),
   ('S', 's'), ('T', 't'), ('U', 'u'), ('V', 'v'), ('W', 'w'), ('X', 'x'),
   ('Y', 'y'), ('Z', 'z'),
   ('Ç', 'ç'), ('Ğ', 'ğ'), ('I', 'ı'), ('İ', 'i'), ('Ö', 'ö'), ('Ş', 'ş'),
   ('Ü', 'ü'), ('Â', 'â'), ('Î', 'î'), ('Û', 'û')]

/-- One character of `word.translate(lower_map).lower()`. -/
def turkishLowerChar (c : Char) : Char := (lowerPairs.lookup c).getD c

/-- One character of `TurkishAlphabet.normalize_circumflex`: a circumflexed
vowel becomes its plain counterpart. -/
def circumflexChar (c : Char) : Char :=
  if c = 'â' then 'a' else if c = 'î' then 'i' else if c = 'û' then 'u' else c

/-- Modelled from the spec: the apostrophe-like characters that
`TextUtil.normalize_apostrophes` rewrites to the canonical apostrophe
(left/right single quotation marks, grave and acute accents, prime, modifier
letter apostrophe). -/
def apostropheVariants : List Char :=
  ['‘', '’', Char.ofNat 96, '´', '′', 'ʼ']

/-- One character of `TextUtil.normalize_apostrophes` /
`TurkishAlphabet.normalize_apostrophe`: an apostrophe variant becomes the
canonical apostrophe, everything else is kept. -/
def normalizeApostropheChar (c : Char) : Char :=
  if c ∈ apostropheVariants then apostropheChar else c

/-- `TurkishMorphology.normalize_for_analysis` over a character list: lower,
strip circumflexes, delete dots unless that would empty the string, then
canonicalize apostrophes. -/
def normalizeList (l : List Char) : List Char :=
  let lowered := (l.map turkishLowerChar).map circumflexChar
  let noDot := lowered.filter (fun c => c != '.')
  (if noDot.isEmpty then lowered else noDot).map normalizeApostropheChar

/-- `TurkishMorphology.normalize_for_analysis(word)` (a static method of the
orchestrator; the character maps it calls are modelled from the spec). -/
def TurkishMorphology.normalize_for_analysis (word : String) : String :=
  String.mk (normalizeList word.data)

/-- `TurkishAlphabet.contains_apostrophe(s)`: does the string contain the
canonical apostrophe or one of its variants. Modelled from the spec. -/
def TurkishAlphabet.contains_apostrophe (s : String) : Bool :=
  s.data.any (fun c => c = apostropheChar ∨ c ∈ apostropheVariants)

/-- `TurkishAlphabet.normalize_apostrophe(s)`: rewrite every apostrophe
variant to the canonical apostrophe. Modelled from the spec. -/
def TurkishAlphabet.normalize_apostrophe (s : String) : String :=
  String.mk (s.data.map normalizeApostropheChar)

/-- Modelled from the spec: `TurkishAlphabet.normalize`, the "standard
alphabet normalization" the apostrophe splitter applies to the
before-apostrophe stem (lowering and circumflex stripping). -/
def TurkishAlphabet.normalize (s : String) : String :=
  String.mk ((s.data.map turkishLowerChar).map circumflexChar)

/-! ## The Word Analysis Aggregator (`word_analysis.py`) -/

/-- `WordAnalysis`: the original input, the ordered candidate analyses, the
normalized input and the mutable iteration index (`self.index`). Field order
follows the Python constructor. -/
structure WordAnalysis where
  inp : String
  analysis_results : List SingleAnalysis
  normalized_input : String
  index : Nat
deriving DecidableEq, Repr

/-- The `WordAnalysis.__init__` constructor: `normalized_input` defaults to
the raw input when the keyword argument is left `None`, and the iteration
index starts at 0. -/
def WordAnalysis.make (inp : String) (analysis_results : List SingleAnalysis)
    (normalized_input : Option String) : WordAnalysis :=
  { inp := inp, analysis_results := analysis_results,
    normalized_input := normalized_input.getD inp, index := 0 }

/-- `WordAnalysis.EMPTY_INPUT_RESULT = WordAnalysis("", ())`: the
process-wide shared empty-input sentinel. -/
def WordAnalysis.EMPTY_INPUT_RESULT : WordAnalysis := WordAnalysis.make "" [] none

/-- `WordAnalysis.is_correct()`:
`len(self.analysis_results) > 0 and not self.analysis_results[0].is_unknown()`. -/
def WordAnalysis.is_correct (w : WordAnalysis) : Bool :=
  match w.analysis_results with
  | [] => false
  | a :: _ => !a.is_unknown

/-- `WordAnalysis.__eq__`: structural comparison of the input, the normalized
input, and the analysis-result sequence, in the order the Python method
checks them (the `self is other` shortcut is subsumed by reflexivity of the
structural comparison). The iteration index is never read. -/
def WordAnalysis.beq (a b : WordAnalysis) : Bool :=
  if a.inp ≠ b.inp then false
  else if a.normalized_input ≠ b.normalized_input then false
  else decide (a.analysis_results = b.analysis_results)

/-- `WordAnalysis.__hash__`, parametric over the hashes of the component
types (Python's `hash` on `str` and on `SingleAnalysis`):
`31 * (31 * hash(inp) + hash(normalized)) ... + hash(x)` folded over the
analysis results. A tuple element is never `None` here, so the
`hash(x) if x else 0` guard of the Python source is always its left branch.
The iteration index is never read. -/
def WordAnalysis.pyHash (hs : String → Int) (ha : SingleAnalysis → Int)
    (w : WordAnalysis) : Int :=
  w.analysis_results.foldl (fun acc x => 31 * acc + ha x)
    (31 * hs w.inp + hs w.normalized_input)

/-- The iterator body: `__next__` yields `analysis_results[index]` and
increments the index while the index is in range, then stops. -/
def WordAnalysis.drain (w : WordAnalysis) : List SingleAnalysis :=
  if h : w.index < w.analysis_results.length then
    w.analysis_results.get ⟨w.index, h⟩ :: WordAnalysis.drain { w with index := w.index + 1 }
  else []
termination_by w.analysis_results.length - w.index
decreasing_by simp_wf; omega

/-- The full iteration protocol: `__iter__` resets the index to 0 and
`__next__` is then drained to exhaustion. -/
def WordAnalysis.iterate (w : WordAnalysis) : List SingleAnalysis :=
  WordAnalysis.drain { w with index := 0 }

/-! ## The orchestrator (`turkish_morphology.py`) -/

/-- How the embedded Python code can fail: dereferencing an attribute of
`None` (`AttributeError`) or hitting the `NotImplementedError` of the cache
path. -/
inductive PyError where
  | attributeError
  | notImplementedError (msg : String)
deriving DecidableEq, Repr

/-- `TurkishMorphology`: the orchestrator state after `__init__`. The
tokenizer, the rule-based analyzer (`self.analyzer.analyze`) and the
unidentified-token analyzer (`self.unidentified_token_analyzer.analyze`) are
external collaborators built elsewhere; they are abstract function-valued
fields here, as the spec treats them as consumed interfaces. -/
structure TurkishMorphology where
  tokenize : String → List Token
  analyzerAnalyze : String → List SingleAnalysis
  unidentifiedAnalyze : Token → List SingleAnalysis
  use_cache : Bool
  use_unidentified_token_analyzer : Bool

/-- Python `find` of the first canonical apostrophe
(`word.find(chr(39))`), as an `Option`-valued index (`none` stands for the
sentinel -1, which the call site only compares with `> 0`). -/
def findChar : List Char → Char → Option Nat
  | [], _ => none
  | x :: xs, c => if x = c then some 0 else (findChar xs c).map (· + 1)

/-- `TurkishMorphology.analyze_words_with_apostrophe(word)`: locate the first
apostrophe; if it is internal, analyze the word with every apostrophe
removed and keep the analyses whose root item is a noun and which either
contain the third-person-singular-possessive morpheme or whose stem equals
the alphabet-normalized before-apostrophe prefix. -/
def TurkishMorphology.analyze_words_with_apostrophe (m : TurkishMorphology)
    (word : String) : List SingleAnalysis :=
  match findChar word.data apostropheChar with
  | some index =>
      if 0 < index ∧ index ≠ word.data.length - 1 then
        if (m.analyzerAnalyze (String.mk (word.data.filter (fun c => c != apostropheChar)))).isEmpty
        then []
        else (m.analyzerAnalyze (String.mk (word.data.filter (fun c => c != apostropheChar)))).filter
          (fun p => decide (p.item.primary_pos = PrimaryPos.Noun) &&
            (p.contains_morpheme TurkishMorphotactics.p3sg ||
             decide (p.get_stem = TurkishAlphabet.normalize (String.mk (word.data.take index)))))
      else []
  | none => []

/-- Step 4 of the orchestration, the branch on `contains_apostrophe`: the
analyses produced before the fallback stage. -/
def TurkishMorphology.analyzerResult (m : TurkishMorphology) (s : String) :
    List SingleAnalysis :=
  if TurkishAlphabet.contains_apostrophe s then
    m.analyze_words_with_apostrophe (TurkishAlphabet.normalize_apostrophe s)
  else m.analyzerAnalyze s

/-- The normalized-input value actually stored in the result: the Python code
reassigns `s` to `normalize_apostrophe(s)` inside the apostrophe branch
before building the `WordAnalysis`. -/
def effectiveNormalized (s : String) : String :=
  if TurkishAlphabet.contains_apostrophe s then TurkishAlphabet.normalize_apostrophe s
  else s

/-- Step 5 of the orchestration: `if len(result) == 0 and
self.use_unidentified_token_analyzer: result =
self.unidentified_token_analyzer.analyze(token)`. -/
def withFallback (m : TurkishMorphology) (t : Token) (r : List SingleAnalysis) :
    List SingleAnalysis :=
  if r.isEmpty && m.use_unidentified_token_analyzer then m.unidentifiedAnalyze t else r

/-- Step 6 of the orchestration: `if len(result) == 1 and
result[0].item.is_unknown(): result = ()`. -/
def suppressLoneUnknown (r : List SingleAnalysis) : List SingleAnalysis :=
  match r with
  | [a] => if a.item.unknown then [] else [a]
  | other => other

/-- The token branch of `analyze_without_cache` (its `else` arm, reached when
the `word` argument is falsy). A `none` token there raises an
`AttributeError` at `token.content`. -/
def TurkishMorphology.analyzeTokenBranch (m : TurkishMorphology)
    (token : Option Token) : Except PyError WordAnalysis :=
  match token with
  | none => .error .attributeError
  | some t =>
      if (TurkishMorphology.normalize_for_analysis t.content).data.isEmpty then
        .ok WordAnalysis.EMPTY_INPUT_RESULT
      else
        .ok (WordAnalysis.make t.content
          (suppressLoneUnknown (withFallback m t
            (m.analyzerResult (TurkishMorphology.normalize_for_analysis t.content))))
          (some (effectiveNormalized (TurkishMorphology.normalize_for_analysis t.content))))

/-- Python truthiness of the optional `word` argument: `None` and the empty
string are falsy. -/
def strTruthy : Option String → Bool
  | none => false
  | some s => !s.data.isEmpty

/-- `TurkishMorphology.analyze_without_cache(word=..., token=...)`. The
Python guard is `if word:`, so an empty-string `word` falls through to the
token branch. The word branch tokenizes, short-circuits on anything other
than exactly one token, and otherwise recurses with only `token` set, which
lands in the token branch (embedded directly). -/
def TurkishMorphology.analyze_without_cache (m : TurkishMorphology)
    (word : Option String) (token : Option Token) : Except PyError WordAnalysis :=
  if strTruthy word then
    if (m.tokenize (word.getD "")).length ≠ 1 then
      .ok (WordAnalysis.make (word.getD "") [] (some (word.getD "")))
    else
      m.analyzeTokenBranch (m.tokenize (word.getD "")).head?
  else
    m.analyzeTokenBranch token

/-- `TurkishMorphology.analyze_with_cache`: unconditionally raises
`NotImplementedError`. -/
def TurkishMorphology.analyze_with_cache (m : TurkishMorphology) (word : String) :
    Except PyError WordAnalysis :=
  .error (.notImplementedError "Cache is not implemented yet, make use_cache False")

/-- `TurkishMorphology.analyze(word)`: dispatch on `use_cache`. -/
def TurkishMorphology.analyze (m : TurkishMorphology) (word : String) :
    Except PyError WordAnalysis :=
  if m.use_cache then m.analyze_with_cache word
  else m.analyze_without_cache (some word) none

/-! ## Concrete instances used by witnesses and counterexamples -/

/-- A concrete orchestrator with trivial collaborators, cache disabled and
the fallback enabled (the builder defaults). -/
def mAny : TurkishMorphology :=
  { tokenize := fun _ => [], analyzerAnalyze := fun _ => [],
    unidentifiedAnalyze := fun _ => [], use_cache := false,
    use_unidentified_token_analyzer := true }

/-- A concrete orchestrator whose tokenizer always yields two tokens. -/
def mTwo : TurkishMorphology :=
  { tokenize := fun s => [{ content := s }, { content := s }],
    analyzerAnalyze := fun _ => [], unidentifiedAnalyze := fun _ => [],
    use_cache := false, use_unidentified_token_analyzer := true }

/-- The concrete orchestrator with the unimplemented cache path enabled. -/
def mCache : TurkishMorphology :=
  { tokenize := fun _ => [], analyzerAnalyze := fun _ => [],
    unidentifiedAnalyze := fun _ => [], use_cache := true,
    use_unidentified_token_analyzer := true }

/-- A synthetic analysis whose root item is the unknown marker. -/
def unknownAnalysis : SingleAnalysis :=
  { item := { root := "UNK", primary_pos := PrimaryPos.Unknown, unknown := true },
    stem := "zxq", morphemes := [] }

/-- An orchestrator whose rule-based analyzer always returns the lone
unknown-marked analysis. -/
def mUnk : TurkishMorphology :=
  { tokenize := fun s => [{ content := s }],
    analyzerAnalyze := fun _ => [unknownAnalysis],
    unidentifiedAnalyze := fun _ => [], use_cache := false,
    use_unidentified_token_analyzer := true }

/-- A noun analysis carrying the third-person-singular-possessive morpheme. -/
def nounP3sg : SingleAnalysis :=
  { item := { root := "ab", primary_pos := PrimaryPos.Noun, unknown := false },
    stem := "ab", morphemes := [TurkishMorphotactics.p3sg] }

/-- An orchestrator whose rule-based analyzer always returns `nounP3sg`. -/
def mApo : TurkishMorphology :=
  { tokenize := fun s => [{ content := s }],
    analyzerAnalyze := fun _ => [nounP3sg],
    unidentifiedAnalyze := fun _ => [], use_cache := false,
    use_unidentified_token_analyzer := true }

/-- The canonical apostrophe as a one-character string. -/
def apoStr : String := String.mk [apostropheChar]

/-! ## Claim theorems -/

/-- C1. The claim says `analyze` of the empty string returns the shared
sentinel `EMPTY_INPUT_RESULT` and does not raise. In the code the empty
string is falsy, so `analyze_without_cache(word="")` takes the token branch
with `token=None` and raises `AttributeError` at `token.content`; only a
token whose content normalizes to the empty string reaches the sentinel.
This theorem evaluates both facts at the failing input. -/
theorem analyze_empty_string_raises :
    mAny.analyze "" = .error PyError.attributeError ∧
    mAny.analyzeTokenBranch (some { content := "" }) = .ok WordAnalysis.EMPTY_INPUT_RESULT :=
  ⟨rfl, rfl⟩

/-- C2. For every non-empty word that tokenizes into anything other than
exactly one token, the uncached `analyze` returns the raw input with no
candidate analyses and the normalized-input field equal to the raw input;
but the claim as stated also covers the empty string (zero tokens), where
the code instead raises `AttributeError`, because the falsy empty string is
routed to the token branch with `token=None` before the tokenizer is even
consulted. -/
theorem analyze_multi_token_short_circuit :
    (∀ (m : TurkishMorphology) (w : String), m.use_cache = false →
        w.data.isEmpty = false → (m.tokenize w).length ≠ 1 →
        m.analyze w = .ok (WordAnalysis.make w [] (some w)))
    ∧ (mAny.tokenize "").length ≠ 1
    ∧ mAny.analyze "" = .error PyError.attributeError := by
  refine ⟨?_, by decide, rfl⟩
  intro m w hc hne hlen
  simp only [TurkishMorphology.analyze, hc, if_false, Bool.false_eq_true,
    TurkishMorphology.analyze_without_cache, strTruthy, hne, Bool.not_false,
    if_true, Option.getD_some]
  rw [if_pos hlen]

/-- C2 witness: a concrete two-token tokenization short-circuits as claimed. -/
theorem analyze_multi_token_witness :
    mTwo.analyze "ab" = .ok (WordAnalysis.make "ab" [] (some "ab")) :=
  analyze_multi_token_short_circuit.1 mTwo "ab" rfl rfl (by decide)

/-- C7. `is_correct()` is true iff the candidate collection is non-empty and
the first element's root item is not the unknown marker. -/
theorem isCorrect_iff (w : WordAnalysis) :
    w.is_correct = true ↔
      ∃ a l, w.analysis_results = a :: l ∧ a.item.unknown = false := by
  cases h : w.analysis_results with
  | nil => simp [WordAnalysis.is_correct, h]
  | cons a l =>
      simp [WordAnalysis.is_correct, h, SingleAnalysis.is_unknown]

/-- C8. When the cache path is enabled, `analyze` fails immediately with the
clear `NotImplementedError`; when it is disabled, `analyze` is exactly the
uncached computation. -/
theorem analyze_cache_path (m : TurkishMorphology) (w : String) :
    (m.use_cache = true →
        m.analyze w = .error (PyError.notImplementedError
          "Cache is not implemented yet, make use_cache False"))
    ∧ (m.use_cache = false →
        m.analyze w = m.analyze_without_cache (some w) none) := by
  constructor <;> intro h <;>
    simp [TurkishMorphology.analyze, TurkishMorphology.analyze_with_cache, h]

/-- C8 witness: the cache-enabled orchestrator fails fast on a concrete word,
and the cache-disabled one takes the uncached path on a concrete word. -/
theorem analyze_cache_path_witness :
    mCache.analyze "ev" = .error (PyError.notImplementedError
      "Cache is not implemented yet, make use_cache False")
    ∧ mAny.analyze "ev" = mAny.analyze_without_cache (some "ev") none :=
  ⟨(analyze_cache_path mCache "ev").1 rfl, (analyze_cache_path mAny "ev").2 rfl⟩

/-! ## Idempotence of normalization (C9) -/

/-- Keys not matching any pair of an association list look up to `none`. -/
theorem lookup_eq_none_of_forall {l : List (Char × Char)} {c : Char}
    (h : ∀ p ∈ l, c ≠ p.1) : l.lookup c = none := by
  induction l with
  | nil => rfl
  | cons p t ih =>
      have hne : (c == p.1) = false := beq_eq_false_iff_ne.mpr (h p (by simp))
      simp only [List.lookup, hne]
      exact ih (fun q hq => h q (by simp [hq]))

/-- A character outside the lowering map is fixed by it. -/
theorem turkishLowerChar_id {c : Char} (h : c ∉ lowerPairs.map Prod.fst) :
    turkishLowerChar c = c := by
  unfold turkishLowerChar
  rw [lookup_eq_none_of_forall]
  · rfl
  · intro p hp hc
    exact h (hc ▸ List.mem_map_of_mem Prod.fst hp)

/-- Every character some normalization step rewrites. -/
def allNormKeys : List Char :=
  lowerPairs.map Prod.fst ++ ['â', 'î', 'û'] ++ apostropheVariants

/-- What one surviving character of the normalization pipeline went through:
lowering, circumflex stripping, apostrophe canonicalization. -/
def normStep (c : Char) : Char :=
  normalizeApostropheChar (circumflexChar (turkishLowerChar c))

/-- On the rewritten characters, the pipeline output is a fixpoint of every
step (checked by evaluation). -/
theorem normStep_fix_keys : ∀ c ∈ allNormKeys,
    turkishLowerChar (normStep c) = normStep c ∧
    circumflexChar (normStep c) = normStep c ∧
    normalizeApostropheChar (normStep c) = normStep c := by decide

/-- The pipeline output is a fixpoint of every step, for every character. -/
theorem normStep_fix (c : Char) :
    turkishLowerChar (normStep c) = normStep c ∧
    circumflexChar (normStep c) = normStep c ∧
    normalizeApostropheChar (normStep c) = normStep c := by
  by_cases h : c ∈ allNormKeys
  · exact normStep_fix_keys c h
  · have hsplit : ¬(c ∈ lowerPairs.map Prod.fst ∨
        c ∈ (['â', 'î', 'û'] : List Char) ∨ c ∈ apostropheVariants) := by
      intro hm
      apply h
      simp only [allNormKeys, List.mem_append]
      tauto
    have hA : c ∉ lowerPairs.map Prod.fst := fun hm => hsplit (Or.inl hm)
    have hB : c ∉ (['â', 'î', 'û'] : List Char) := fun hm => hsplit (Or.inr (Or.inl hm))
    have hC : c ∉ apostropheVariants := fun hm => hsplit (Or.inr (Or.inr hm))
    simp only [List.mem_cons, List.not_mem_nil, or_false, not_or] at hB
    have h1 : turkishLowerChar c = c := turkishLowerChar_id hA
    have h2 : circumflexChar c = c := by
      simp [circumflexChar, hB.1, hB.2.1, hB.2.2]
    have h3 : normalizeApostropheChar c = c := by
      simp [normalizeApostropheChar, hC]
    have hstep : normStep c = c := by
      unfold normStep; rw [h1, h2, h3]
    rw [hstep]; exact ⟨h1, h2, h3⟩

/-- A map whose function fixes every element of a list fixes the list. -/
theorem map_id_of_fix {α : Type} {f : α → α} :
    ∀ l : List α, (∀ x ∈ l, f x = x) → l.map f = l := by
  intro l h
  induction l with
  | nil => rfl
  | cons a t ih =>
      simp only [List.map_cons, h a (by simp), List.cons.injEq, true_and]
      exact ih (fun x hx => h x (by simp [hx]))

/-- A filter whose predicate holds on every element keeps the list. -/
theorem filter_eq_self_of_all {α : Type} {p : α → Bool} :
    ∀ l : List α, (∀ x ∈ l, p x = true) → l.filter p = l := by
  intro l h
  induction l with
  | nil => rfl
  | cons a t ih =>
      simp only [List.filter_cons, h a (by simp), if_true]
      simp only [List.cons.injEq, true_and]
      exact ih (fun x hx => h x (by simp [hx]))

/-- A filter whose predicate fails on every element empties the list. -/
theorem filter_eq_nil_of_none {α : Type} {p : α → Bool} :
    ∀ l : List α, (∀ x ∈ l, p x = false) → l.filter p = [] := by
  intro l h
  induction l with
  | nil => rfl
  | cons a t ih =>
      simp only [List.filter_cons, h a (by simp), Bool.false_eq_true, if_false]
      exact ih (fun x hx => h x (by simp [hx]))

/-- An empty filter result means the predicate failed everywhere. -/
theorem forall_false_of_filter_nil {α : Type} {p : α → Bool} :
    ∀ l : List α, l.filter p = [] → ∀ x ∈ l, p x = false := by
  intro l
  induction l with
  | nil => intro _ x hx; cases hx
  | cons a t ih =>
      intro hf x hx
      rw [List.filter_cons] at hf
      by_cases ha : p a = true
      · rw [if_pos ha] at hf; cases hf
      · rcases List.mem_cons.1 hx with rfl | hxt
        · exact Bool.not_eq_true _ ▸ (by revert ha; cases p x <;> simp)
        · exact ih (by rw [if_neg ha] at hf; exact hf) x hxt

/-- Canonicalizing apostrophes never produces a dot from a non-dot. -/
theorem normalizeApostropheChar_ne_dot {c : Char} (h : (c != '.') = true) :
    (normalizeApostropheChar c != '.') = true := by
  unfold normalizeApostropheChar
  split
  · decide
  · exact h

/-- Every element of a normalized character list is a pipeline output. -/
theorem mem_normalizeList {l : List Char} {x : Char} (hx : x ∈ normalizeList l) :
    ∃ c, x = normStep c := by
  simp only [normalizeList] at hx
  rcases List.mem_map.1 hx with ⟨y, hy, rfl⟩
  by_cases he : (((l.map turkishLowerChar).map circumflexChar).filter
      (fun c => c != '.')).isEmpty
  · rw [if_pos he] at hy
    rcases List.mem_map.1 hy with ⟨z, hz, rfl⟩
    rcases List.mem_map.1 hz with ⟨c, _, rfl⟩
    exact ⟨c, rfl⟩
  · rw [if_neg he] at hy
    have hy2 := List.mem_of_mem_filter hy
    rcases List.mem_map.1 hy2 with ⟨z, hz, rfl⟩
    rcases List.mem_map.1 hz with ⟨c, _, rfl⟩
    exact ⟨c, rfl⟩

/-- A normalized character list either contains no dot at all or consists of
dots only (the dot-removal step restores the string when removal would empty
it, and the other steps neither create nor destroy dots). -/
theorem normalizeList_dots (l : List Char) :
    (∀ x ∈ normalizeList l, (x != '.') = true) ∨
    (∀ x ∈ normalizeList l, (x != '.') = false) := by
  simp only [normalizeList]
  by_cases he : (((l.map turkishLowerChar).map circumflexChar).filter
      (fun c => c != '.')).isEmpty
  · right
    rw [if_pos he]
    intro x hx
    rcases List.mem_map.1 hx with ⟨y, hy, rfl⟩
    have hnil : ((l.map turkishLowerChar).map circumflexChar).filter
        (fun c => c != '.') = [] := List.isEmpty_iff.mp he
    have hdot : (y != '.') = false :=
      forall_false_of_filter_nil (p := fun c => c != '.') _ hnil y hy
    have : y = '.' := by
      revert hdot; simp
    subst this
    decide
  · left
    rw [if_neg he]
    intro x hx
    rcases List.mem_map.1 hx with ⟨y, hy, rfl⟩
    have hp : (y != '.') = true :=
      List.of_mem_filter (p := fun c => c != '.') hy
    exact normalizeApostropheChar_ne_dot hp

/-- The character-list normalization is idempotent. -/
theorem normalizeList_idem (l : List Char) :
    normalizeList (normalizeList l) = normalizeList l := by
  have hfix : ∀ x ∈ normalizeList l,
      turkishLowerChar x = x ∧ circumflexChar x = x ∧
      normalizeApostropheChar x = x := by
    intro x hx
    rcases mem_normalizeList hx with ⟨c, rfl⟩
    exact normStep_fix c
  have hmap1 : (normalizeList l).map turkishLowerChar = normalizeList l :=
    map_id_of_fix _ (fun x hx => (hfix x hx).1)
  have hmap2 : (normalizeList l).map circumflexChar = normalizeList l :=
    map_id_of_fix _ (fun x hx => (hfix x hx).2.1)
  have hmap3 : (normalizeList l).map normalizeApostropheChar = normalizeList l :=
    map_id_of_fix _ (fun x hx => (hfix x hx).2.2)
  conv_lhs => rw [normalizeList]
  simp only [hmap1, hmap2]
  rcases normalizeList_dots l with hnd | hd
  · rw [filter_eq_self_of_all _ hnd, ite_self]
    exact hmap3
  · rw [filter_eq_nil_of_none _ hd]
    simp only [List.isEmpty_nil, if_true]
    exact hmap3

/-- C9. `normalize_for_analysis` (lowering map, circumflex stripping, dot
removal unless it empties the string, apostrophe canonicalization) is
idempotent. The character maps it composes are modelled from the spec, since
`TurkishAlphabet` and `TextUtil` are outside the given repository files. -/
theorem normalize_for_analysis_idem (s : String) :
    TurkishMorphology.normalize_for_analysis (TurkishMorphology.normalize_for_analysis s) =
      TurkishMorphology.normalize_for_analysis s := by
  show String.mk (normalizeList (normalizeList s.data)) = String.mk (normalizeList s.data)
  rw [normalizeList_idem]

/-! ## The apostrophe splitter (C3, C4) -/

/-- C4. If the first apostrophe of the word is absent, at position 0, or at
the final character, the apostrophe splitter returns no analyses (its Lean
embedding is total, matching the Python function, which raises nothing on
this path). -/
theorem apostrophe_malformed_empty (m : TurkishMorphology) (word : String)
    (h : findChar word.data apostropheChar = none ∨
         findChar word.data apostropheChar = some 0 ∨
         findChar word.data apostropheChar = some (word.data.length - 1)) :
    m.analyze_words_with_apostrophe word = [] := by
  rcases h with h | h | h
  · simp [TurkishMorphology.analyze_words_with_apostrophe, h]
  · simp [TurkishMorphology.analyze_words_with_apostrophe, h]
  · simp only [TurkishMorphology.analyze_words_with_apostrophe, h]
    rw [if_neg]
    intro hc
    exact hc.2 rfl

/-- C4 witness: a word with the apostrophe as its last character yields zero
analyses even though the analyzer has candidates for the stripped word. -/
theorem apostrophe_malformed_empty_witness :
    mApo.analyze_words_with_apostrophe ("ahmet" ++ apoStr) = [] :=
  apostrophe_malformed_empty mApo ("ahmet" ++ apoStr) (Or.inr (Or.inr (by decide)))

/-- C3 (amended). When the first apostrophe of the word sits at an internal
position `i`, the splitter returns exactly the analyses of the word with
every apostrophe removed whose root item is a noun and which either contain
the third-person-singular-possessive morpheme or whose stem equals the
alphabet-normalized prefix before that first apostrophe. -/
theorem apostrophe_filter_eq (m : TurkishMorphology) (word : String) (i : Nat)
    (hf : findChar word.data apostropheChar = some i)
    (h0 : 0 < i) (hl : i ≠ word.data.length - 1) :
    m.analyze_words_with_apostrophe word =
      (m.analyzerAnalyze (String.mk (word.data.filter (fun c => c != apostropheChar)))).filter
        (fun p => decide (p.item.primary_pos = PrimaryPos.Noun) &&
          (p.contains_morpheme TurkishMorphotactics.p3sg ||
           decide (p.get_stem = TurkishAlphabet.normalize (String.mk (word.data.take i))))) := by
  simp only [TurkishMorphology.analyze_words_with_apostrophe, hf]
  rw [if_pos ⟨h0, hl⟩]
  by_cases hemp :
      (m.analyzerAnalyze (String.mk (word.data.filter (fun c => c != apostropheChar)))).isEmpty
  · rw [if_pos hemp, List.isEmpty_iff.mp hemp, List.filter_nil]
  · rw [if_neg hemp]

/-- C3 witness: a concrete word whose single apostrophe is internal is
filtered exactly as the amended claim states. -/
theorem apostrophe_filter_eq_witness :
    mApo.analyze_words_with_apostrophe ("a" ++ apoStr ++ "b") =
      (mApo.analyzerAnalyze (String.mk (("a" ++ apoStr ++ "b").data.filter
          (fun c => c != apostropheChar)))).filter
        (fun p => decide (p.item.primary_pos = PrimaryPos.Noun) &&
          (p.contains_morpheme TurkishMorphotactics.p3sg ||
           decide (p.get_stem = TurkishAlphabet.normalize
             (String.mk (("a" ++ apoStr ++ "b").data.take 1))))) :=
  apostrophe_filter_eq mApo ("a" ++ apoStr ++ "b") 1 (by decide) (by decide) (by decide)

/-- The word whose character sequence is apostrophe, `a`, apostrophe, `b`:
it contains an apostrophe at the internal position 2, but its first
apostrophe is at position 0. -/
def wApo : String := apoStr ++ "a" ++ apoStr ++ "b"

/-- C3 counterexample: `wApo` contains an apostrophe at position 2, which is
neither 0 nor the last position, and the analyzer has an analysis of the
apostrophe-stripped word that passes the claim's filter (a noun carrying the
third-person-singular-possessive morpheme); yet the splitter returns the
empty sequence, because the code keys on the FIRST apostrophe, which is at
position 0. So, as stated over words "containing an apostrophe not at
position 0 and not at the last character", not every filter-passing analysis
survives. -/
theorem apostrophe_filter_cex :
    wApo.data.get? 2 = some apostropheChar ∧
    (0 < 2 ∧ 2 ≠ wApo.data.length - 1) ∧
    nounP3sg ∈ mApo.analyzerAnalyze (String.mk (wApo.data.filter (fun c => c != apostropheChar))) ∧
    (decide (nounP3sg.item.primary_pos = PrimaryPos.Noun) &&
      (nounP3sg.contains_morpheme TurkishMorphotactics.p3sg ||
       decide (nounP3sg.get_stem = TurkishAlphabet.normalize (String.mk (wApo.data.take 2))))) = true ∧
    nounP3sg ∉ mApo.analyze_words_with_apostrophe wApo := by
  refine ⟨by decide, ⟨by decide, by decide⟩, by decide, by decide, by decide⟩

/-! ## Fallback and lone-unknown suppression (C5, C6) -/

/-- C5. If the candidate collection after the fallback stage is exactly one
analysis whose root item is the unknown marker, the returned `WordAnalysis`
carries an empty candidate collection. -/
theorem lone_unknown_suppressed (m : TurkishMorphology) (t : Token) (a : SingleAnalysis)
    (hne : (TurkishMorphology.normalize_for_analysis t.content).data.isEmpty = false)
    (hr : withFallback m t
        (m.analyzerResult (TurkishMorphology.normalize_for_analysis t.content)) = [a])
    (hu : a.item.unknown = true) :
    ∃ wa : WordAnalysis, m.analyzeTokenBranch (some t) = .ok wa ∧
      wa.analysis_results = [] := by
  refine ⟨WordAnalysis.make t.content []
    (some (effectiveNormalized (TurkishMorphology.normalize_for_analysis t.content))), ?_, rfl⟩
  simp only [TurkishMorphology.analyzeTokenBranch]
  rw [if_neg (by simp [hne])]
  rw [hr]
  simp [suppressLoneUnknown, hu]

/-- C5 witness: an orchestrator whose analyzer yields the lone unknown-marked
analysis returns an empty candidate collection for a concrete token. -/
theorem lone_unknown_suppressed_witness :
    ∃ wa : WordAnalysis, mUnk.analyzeTokenBranch (some { content := "zxq" }) = .ok wa ∧
      wa.analysis_results = [] :=
  lone_unknown_suppressed mUnk { content := "zxq" } unknownAnalysis
    (by decide) (by decide) rfl

/-- An orchestrator with an empty analyzer, a non-trivial fallback analyzer
and the fallback enabled. -/
def mFb : TurkishMorphology :=
  { tokenize := fun s => [{ content := s }], analyzerAnalyze := fun _ => [],
    unidentifiedAnalyze := fun _ => [nounP3sg], use_cache := false,
    use_unidentified_token_analyzer := true }

/-- An orchestrator with an empty analyzer, a non-trivial fallback analyzer
and the fallback disabled. -/
def mNoFb : TurkishMorphology :=
  { tokenize := fun s => [{ content := s }], analyzerAnalyze := fun _ => [],
    unidentifiedAnalyze := fun _ => [nounP3sg], use_cache := false,
    use_unidentified_token_analyzer := false }

/-- C6. The fallback stage takes the Unidentified Token Analyzer's result on
the original token exactly when the analyzer stage produced nothing and the
fallback flag is enabled; otherwise it passes the analyzer result through
unchanged, and with the flag disabled an empty analyzer result ends as an
empty candidate collection in the returned `WordAnalysis`. -/
theorem fallback_invocation (m : TurkishMorphology) (t : Token) :
    (m.analyzerResult (TurkishMorphology.normalize_for_analysis t.content) = [] →
        m.use_unidentified_token_analyzer = true →
        withFallback m t (m.analyzerResult (TurkishMorphology.normalize_for_analysis t.content)) =
          m.unidentifiedAnalyze t)
    ∧ (∀ r : List SingleAnalysis,
        r ≠ [] ∨ m.use_unidentified_token_analyzer = false → withFallback m t r = r)
    ∧ (m.use_unidentified_token_analyzer = false →
        m.analyzerResult (TurkishMorphology.normalize_for_analysis t.content) = [] →
        (TurkishMorphology.normalize_for_analysis t.content).data.isEmpty = false →
        ∃ wa : WordAnalysis, m.analyzeTokenBranch (some t) = .ok wa ∧
          wa.analysis_results = []) := by
  refine ⟨?_, ?_, ?_⟩
  · intro h1 h2
    simp [withFallback, h1, h2]
  · intro r hr
    rcases hr with hr | hr
    · have hne : r.isEmpty = false := by
        cases r with
        | nil => exact absurd rfl hr
        | cons x xs => rfl
      simp [withFallback, hne]
    · simp [withFallback, hr]
  · intro hflag hres hne
    refine ⟨WordAnalysis.make t.content []
      (some (effectiveNormalized (TurkishMorphology.normalize_for_analysis t.content))), ?_, rfl⟩
    simp only [TurkishMorphology.analyzeTokenBranch]
    rw [if_neg (by simp [hne])]
    rw [hres]
    simp [withFallback, hflag, suppressLoneUnknown]

/-- C6 witness: with the fallback enabled the fallback result is taken for a
concrete empty analyzer stage; with it disabled the same token ends with an
empty candidate collection. -/
theorem fallback_invocation_witness :
    withFallback mFb { content := "zxq" }
        (mFb.analyzerResult (TurkishMorphology.normalize_for_analysis "zxq")) =
      mFb.unidentifiedAnalyze { content := "zxq" } ∧
    (∃ wa : WordAnalysis, mNoFb.analyzeTokenBranch (some { content := "zxq" }) = .ok wa ∧
      wa.analysis_results = []) :=
  ⟨(fallback_invocation mFb { content := "zxq" }).1 (by decide) rfl,
   (fallback_invocation mNoFb { content := "zxq" }).2.2 rfl (by decide) (by decide)⟩

/-! ## Structural equality, hashing and iteration of `WordAnalysis` (C10) -/

/-- Draining the iterator from index `i` yields the suffix of the analysis
results from `i` (by induction on the remaining fuel). -/
theorem drain_eq_drop_aux :
    ∀ (k : Nat) (rs : List SingleAnalysis) (s1 s2 : String) (i : Nat),
      rs.length ≤ i + k →
      WordAnalysis.drain ⟨s1, rs, s2, i⟩ = rs.drop i := by
  intro k
  induction k with
  | zero =>
      intro rs s1 s2 i h
      unfold WordAnalysis.drain
      rw [dif_neg (by simp; omega)]
      exact (List.drop_eq_nil_of_le (by omega)).symm
  | succ k ih =>
      intro rs s1 s2 i h
      unfold WordAnalysis.drain
      by_cases hc : i < rs.length
      · rw [dif_pos hc]
        show rs.get ⟨i, hc⟩ :: WordAnalysis.drain ⟨s1, rs, s2, i + 1⟩ = rs.drop i
        rw [ih rs s1 s2 (i + 1) (by omega)]
        rw [List.drop_eq_getElem_cons hc]
        rfl
      · rw [dif_neg hc]
        exact (List.drop_eq_nil_of_le (by omega)).symm

/-- Draining the iterator from index `i` yields the suffix of the analysis
results from `i`. -/
theorem drain_eq_drop (rs : List SingleAnalysis) (s1 s2 : String) (i : Nat) :
    WordAnalysis.drain ⟨s1, rs, s2, i⟩ = rs.drop i :=
  drain_eq_drop_aux rs.length rs s1 s2 i (by omega)

/-- `__eq__` decides exactly the component-wise equality of input, normalized
input and analysis results. -/
theorem wordAnalysis_beq_iff (a b : WordAnalysis) :
    WordAnalysis.beq a b = true ↔
      (a.inp = b.inp ∧ a.normalized_input = b.normalized_input ∧
       a.analysis_results = b.analysis_results) := by
  obtain ⟨a1, a2, a3, a4⟩ := a
  obtain ⟨b1, b2, b3, b4⟩ := b
  by_cases h1 : a1 = b1 <;> by_cases h3 : a3 = b3 <;>
    simp [WordAnalysis.beq, h1, h3]

/-- C10. `WordAnalysis` equality is structural over exactly the input, the
normalized input and the ordered analysis-result sequence; equal values hash
equally under any hashes of the component types; and the mutable iteration
index affects neither equality, nor the hash, nor the sequence the iteration
protocol yields (iteration always yields the analysis results in order,
because `__iter__` resets the index). -/
theorem wordAnalysis_structural (hs : String → Int) (ha : SingleAnalysis → Int)
    (a b : WordAnalysis) (i : Nat) :
    (WordAnalysis.beq a b = true ↔
      (a.inp = b.inp ∧ a.normalized_input = b.normalized_input ∧
       a.analysis_results = b.analysis_results))
    ∧ (WordAnalysis.beq a b = true →
        WordAnalysis.pyHash hs ha a = WordAnalysis.pyHash hs ha b)
    ∧ WordAnalysis.beq { a with index := i } a = true
    ∧ WordAnalysis.pyHash hs ha { a with index := i } = WordAnalysis.pyHash hs ha a
    ∧ WordAnalysis.iterate { a with index := i } = a.analysis_results := by
  refine ⟨wordAnalysis_beq_iff a b, ?_, ?_, ?_, ?_⟩
  · intro hb
    obtain ⟨e1, e2, e3⟩ := (wordAnalysis_beq_iff a b).mp hb
    obtain ⟨a1, a2, a3, a4⟩ := a
    obtain ⟨b1, b2, b3, b4⟩ := b
    simp only at e1 e2 e3
    subst e1; subst e2; subst e3
    rfl
  · obtain ⟨a1, a2, a3, a4⟩ := a
    simp [WordAnalysis.beq]
  · rfl
  · obtain ⟨a1, a2, a3, a4⟩ := a
    show WordAnalysis.iterate ⟨a1, a2, a3, i⟩ = a2
    show WordAnalysis.drain ⟨a1, a2, a3, 0⟩ = a2
    rw [drain_eq_drop]
    exact List.drop_zero a2
